import Mathlib

/-!
Verification development for the component parameterization layer of the
VoigtFit repository (`VoigtFit/container/components.py`): the `Component`
record with its validation setters and generic option dictionary, the
fit-output file loader `load_components_from_file`, and the array builder
`components_from_array`.

Python values are modelled as follows: numeric scalars become `ℚ`
(values are passed through without floating-point arithmetic), the
`options` dict becomes an association list with Python-dict update
semantics (update in place when the key exists, append otherwise),
`lmfit.Parameters` becomes an ordered list of named entries, exceptions
become `Except`/`Option` results.
-/

/-- Values stored in the `options` dict of a `Component`: the `var_*`
entries hold booleans, the `tie_*` entries hold `None` or a string. -/
inductive OptVal where
  | boolVal : Bool → OptVal
  | tieVal : Option String → OptVal
deriving DecidableEq, Repr

/-- Lookup in a Python dict modelled as an association list
(`d[k]`, with `none` standing for a raised `KeyError`). -/
def dictGet (d : List (String × OptVal)) (k : String) : Option OptVal :=
  match d with
  | [] => none
  | (k₁, v₁) :: rest => if k₁ = k then some v₁ else dictGet rest k

/-- Update of a Python dict modelled as an association list
(`d[k] = v`): replace in place when the key exists, append otherwise. -/
def dictSet (d : List (String × OptVal)) (k : String) (v : OptVal) :
    List (String × OptVal) :=
  match d with
  | [] => [(k, v)]
  | (k₁, v₁) :: rest =>
      if k₁ = k then (k₁, v) :: rest else (k₁, v₁) :: dictSet rest k v

/-- One velocity component: the four stored physical parameters together
with the `options` dict (source: class `Component`, fields `_z`, `_b`,
`_logN`, `_rf` and `options`). -/
structure Component where
  _z : ℚ
  _b : ℚ
  _logN : ℚ
  _rf : ℚ
  options : List (String × OptVal)
deriving DecidableEq, Repr

/-- Constructor `Component.__init__`: the four physical values are stored
directly into the underscore fields (no validation on this path), and the
options dict is built with the eight keys in the literal's order. -/
def Component.init (z b logN rf : ℚ) (var_z var_b var_N var_rf : Bool)
    (tie_z tie_b tie_N tie_rf : Option String) : Component :=
  { _z := z, _b := b, _logN := logN, _rf := rf,
    options := [("var_z", .boolVal var_z), ("var_b", .boolVal var_b),
                ("var_N", .boolVal var_N), ("var_rf", .boolVal var_rf),
                ("tie_z", .tieVal tie_z), ("tie_b", .tieVal tie_b),
                ("tie_N", .tieVal tie_N), ("tie_rf", .tieVal tie_rf)] }

/-- Setter for `z`: pass-through, no validation. -/
def Component.setZ (c : Component) (val : ℚ) : Component :=
  { c with _z := val }

/-- Setter for `b`: a negative value is stored as its absolute value
(with a printed warning, not modelled); otherwise the value is stored
unchanged. -/
def Component.setB (c : Component) (val : ℚ) : Component :=
  if val < 0 then { c with _b := |val| } else { c with _b := val }

/-- Setter for `logN`: pass-through, no validation. -/
def Component.setLogN (c : Component) (val : ℚ) : Component :=
  { c with _logN := val }

/-- Setter for `rf`: values outside `[0,1]` are clamped to the nearest
boundary (with a printed warning, not modelled); the branch structure
mirrors the source's nested conditionals. -/
def Component.setRf (c : Component) (val : ℚ) : Component :=
  if val < 0 ∨ val > 1 then
    if val > 1 then { c with _rf := 1 }
    else if val < 0 then { c with _rf := 0 }
    else c
  else { c with _rf := val }

/-- Method `set_option`: writes `self.options[key] = value` for any key
(an unrecognized key is silently inserted). -/
def Component.set_option (c : Component) (key : String) (value : OptVal) :
    Component :=
  { c with options := dictSet c.options key value }

/-- Method `get_option`: reads `self.options[key]`; `none` models the
`KeyError` raised on a missing key. -/
def Component.get_option (c : Component) (key : String) : Option OptVal :=
  dictGet c.options key

/-- Method `get_pars`: the four physical values in fixed order. -/
def Component.get_pars (c : Component) : List ℚ :=
  [c._z, c._b, c._logN, c._rf]

/-- The eight recognized option keys, in the order `__init__` creates
them. -/
def optionKeys : List String :=
  ["var_z", "var_b", "var_N", "var_rf", "tie_z", "tie_b", "tie_N", "tie_rf"]

/-- One entry of an `lmfit.Parameters` mapping: a name, a value, and an
optional standard error (`stderr` is `None` right after `add`). -/
structure Entry where
  name : String
  value : ℚ
  stderr : Option ℚ
deriving DecidableEq, Repr

/-- Model of `pars.add(name, value=v)`: dict-style insertion into the
ordered parameter list (replace in place when the name exists, append
otherwise); a freshly added parameter has `stderr = None`. -/
def parsAdd (ps : List Entry) (n : String) (v : ℚ) : List Entry :=
  match ps with
  | [] => [⟨n, v, none⟩]
  | e :: rest =>
      if e.name = n then ⟨n, v, none⟩ :: rest else e :: parsAdd rest n v

/-- Model of `pars[name].stderr = err`: mutate the entry with the given
name (names are unique in a dict, so mapping over the list is faithful). -/
def parsSetStderr (ps : List Entry) (n : String) (err : ℚ) : List Entry :=
  ps.map (fun e => if e.name = n then { e with stderr := some err } else e)

/-- Decimal digit characters, fuel-based so that concrete values reduce
definitionally: accumulates the digits of `n` in front of `acc`.  Models
the rendering of a non-negative integer by the format specifier `%i`. -/
def natCharsAux : ℕ → ℕ → List Char → List Char
  | 0, _, acc => acc
  | fuel + 1, n, acc =>
      let d := Char.ofNat (48 + n % 10)
      if n < 10 then d :: acc else natCharsAux fuel (n / 10) (d :: acc)

/-- Decimal rendering of a natural number, as produced by `%i`. -/
def natStr (n : ℕ) : String :=
  ⟨natCharsAux (n + 1) n []⟩

/-- Decimal rendering of a Python `int` by `%i` (sign then digits). -/
def intStr (i : ℤ) : String :=
  if i < 0 then "-" ++ natStr i.natAbs else natStr i.toNat

/-- Model of `ion.replace('*', 'x')`: for a single-character pattern and
replacement this is a character map. -/
def replaceStar (s : String) : String :=
  ⟨s.data.map (fun c => if c = '*' then 'x' else c)⟩

/-- Model of Python `zip` over four lists: truncates to the shortest. -/
def zip4 {α β γ δ : Type} : List α → List β → List γ → List δ →
    List (α × β × γ × δ)
  | a :: as, b :: bs, c :: cs, d :: ds => (a, b, c, d) :: zip4 as bs cs ds
  | _, _, _, _ => []

/-- Loop body of `components_from_array`: for each `(z, b, logN, rf)`
quadruple, synthesize the four names with the raw ion label (note: no
`*` substitution on this path in the source) and `add` the four values. -/
def cfaLoop (ion : String) : ℕ → List (ℚ × ℚ × ℚ × ℚ) → List Entry →
    List Entry
  | _, [], ps => ps
  | num, (z, b, logN, rf) :: rest, ps =>
      let z_name := "z" ++ natStr num ++ "_" ++ ion
      let b_name := "b" ++ natStr num ++ "_" ++ ion
      let N_name := "logN" ++ natStr num ++ "_" ++ ion
      let rf_name := "rf" ++ natStr num ++ "_" ++ ion
      let ps := parsAdd ps z_name z
      let ps := parsAdd ps b_name b
      let ps := parsAdd ps N_name logN
      let ps := parsAdd ps rf_name rf
      cfaLoop ion (num + 1) rest ps

/-- Function `components_from_array`: builds an `lmfit.Parameters` set
from an ion label and four equal-length value lists (`zip` truncation
semantics when they differ), starting from an empty parameter set. -/
def components_from_array (ion : String) (z b logN rf : List ℚ) :
    List Entry :=
  cfaLoop ion 0 (zip4 z b logN rf) []

/-- Plain-append characterization of the builder loop, used to state what
`components_from_array` produces (proved equal to `cfaLoop` below: the
synthesized names never collide, so dict insertion is plain appending). -/
def cfaPlain (ion : String) : ℕ → List (ℚ × ℚ × ℚ × ℚ) → List Entry
  | _, [] => []
  | num, (z, b, logN, rf) :: rest =>
      ⟨"z" ++ natStr num ++ "_" ++ ion, z, none⟩ ::
      ⟨"b" ++ natStr num ++ "_" ++ ion, b, none⟩ ::
      ⟨"logN" ++ natStr num ++ "_" ++ ion, logN, none⟩ ::
      ⟨"rf" ++ natStr num ++ "_" ++ ion, rf, none⟩ ::
      cfaPlain ion (num + 1) rest

/-- Freshness invariant for the builder loop: no entry of `ps` bears a
name the loop could still synthesize, i.e. any field name at any index
at or beyond `num`. -/
def FreshFrom (ion : String) (num : ℕ) (ps : List Entry) : Prop :=
  ∀ e ∈ ps, ∀ k, num ≤ k →
    e.name ∉ ["z" ++ natStr k ++ "_" ++ ion, "b" ++ natStr k ++ "_" ++ ion,
              "logN" ++ natStr k ++ "_" ++ ion,
              "rf" ++ natStr k ++ "_" ++ ion]

/-- Whitespace test used by Python `str.strip()` and `str.split()`. -/
def isWS (c : Char) : Bool :=
  c == ' ' || c == '\t' || c == '\n' || c == '\r'

/-- Model of `str.strip()`: drop leading and trailing whitespace. -/
def stripChars (l : List Char) : List Char :=
  ((l.dropWhile isWS).reverse.dropWhile isWS).reverse

/-- Model of `str.split()` (no separator argument): split on runs of
whitespace, discarding empty fields; `acc` holds the current token in
reverse. -/
def splitWSAux : List Char → List Char → List String
  | [], acc => if acc.isEmpty then [] else [⟨acc.reverse⟩]
  | c :: cs, acc =>
      if isWS c then
        if acc.isEmpty then splitWSAux cs []
        else ⟨acc.reverse⟩ :: splitWSAux cs []
      else splitWSAux cs (c :: acc)

/-- Numeric value of a list of decimal digit characters. -/
def digitsToNat (l : List Char) : ℕ :=
  l.foldl (fun acc c => 10 * acc + (c.toNat - 48)) 0

/-- Optional leading sign: returns whether the sign was `-`, and the
remaining characters. -/
def parseSignChars : List Char → Bool × List Char
  | '+' :: r => (false, r)
  | '-' :: r => (true, r)
  | r => (false, r)

/-- Mantissa of a decimal literal: digits, optionally with one decimal
point, requiring at least one digit overall. -/
def parseMantissa (l : List Char) : Option ℚ :=
  let ip := l.takeWhile Char.isDigit
  let rest := l.dropWhile Char.isDigit
  match rest with
  | [] => if ip.isEmpty then none else some (digitsToNat ip : ℚ)
  | '.' :: rest2 =>
      let fp := rest2.takeWhile Char.isDigit
      let rest3 := rest2.dropWhile Char.isDigit
      if rest3.isEmpty then
        if ip.isEmpty && fp.isEmpty then none
        else some ((digitsToNat ip : ℚ) + (digitsToNat fp : ℚ) / (10 : ℚ) ^ fp.length)
      else none
  | _ => none

/-- Exponent part of a decimal literal: optional sign then digits. -/
def parseExpChars (l : List Char) : Option ℤ :=
  let (neg, r) := parseSignChars l
  let ds := r.takeWhile Char.isDigit
  let rest := r.dropWhile Char.isDigit
  if rest.isEmpty && !ds.isEmpty then
    some (if neg then -(digitsToNat ds : ℤ) else (digitsToNat ds : ℤ))
  else none

/-- Model of the Python builtin `float()` on a whitespace-free token,
restricted to sign/decimal/exponent notation (the special forms `inf`,
`nan` and digit underscores are not modelled; no claim depends on them).
Returns `none` where `float()` raises `ValueError`. -/
def parseFloatQ (s : String) : Option ℚ :=
  let (neg, l) := parseSignChars s.data
  let m := l.takeWhile (fun c => c != 'e' && c != 'E')
  let rest := l.dropWhile (fun c => c != 'e' && c != 'E')
  match rest with
  | [] => (parseMantissa m).map (fun q => if neg then -q else q)
  | _ :: er =>
      match parseMantissa m, parseExpChars er with
      | some q, some e =>
          let q := if neg then -q else q
          some (if 0 ≤ e then q * (10 : ℚ) ^ e.toNat
                else q / (10 : ℚ) ^ (-e).toNat)
      | _, _ => none

/-- Model of the Python builtin `int()` on a whitespace-free token:
optional sign then decimal digits only.  Returns `none` where `int()`
raises `ValueError`. -/
def parseIntZ (s : String) : Option ℤ :=
  let (neg, l) := parseSignChars s.data
  let ds := l.takeWhile Char.isDigit
  let rest := l.dropWhile Char.isDigit
  if rest.isEmpty && !ds.isEmpty then
    some (if neg then -(digitsToNat ds : ℤ) else (digitsToNat ds : ℤ))
  else none

/-- Exceptions the loader body can raise: `IndexError` from indexing the
token list past its end, `ValueError` (with the offending token) from
`int()`/`float()`. -/
inductive LoadErr where
  | indexError : LoadErr
  | valueError : String → LoadErr
deriving DecidableEq, Repr

/-- Model of `pars[i]` on the token list: `IndexError` past the end. -/
def getTok (pars : List String) (i : ℕ) : Except LoadErr String :=
  match pars.get? i with
  | some t => .ok t
  | none => .error .indexError

/-- Lift of `float()` into the loader's exception monad. -/
def parseFloatE (t : String) : Except LoadErr ℚ :=
  match parseFloatQ t with
  | some v => .ok v
  | none => .error (.valueError t)

/-- Lift of `int()` into the loader's exception monad. -/
def parseIntE (t : String) : Except LoadErr ℤ :=
  match parseIntZ t with
  | some v => .ok v
  | none => .error (.valueError t)

/-- One element of `components_to_add`, in the order the source appends:
`[num, ion, z, b, logN, rf, z_err, b_err, logN_err, rf_err]`. -/
structure CompRow where
  num : ℤ
  ion : String
  z : ℚ
  b : ℚ
  logN : ℚ
  rf : ℚ
  z_err : ℚ
  b_err : ℚ
  logN_err : ℚ
  rf_err : ℚ
deriving DecidableEq, Repr

/-- Body of the `len(pars) == 8` branch, with the source's evaluation
order: index each token before converting it, reading tokens 0 through 9
(so tokens 8 and 9 raise `IndexError` whenever the branch guard held). -/
def parseDataTokens (pars : List String) : Except LoadErr CompRow := do
  let t0 ← getTok pars 0
  let num ← parseIntE t0
  let ion ← getTok pars 1
  let t2 ← getTok pars 2
  let z ← parseFloatE t2
  let t3 ← getTok pars 3
  let z_err ← parseFloatE t3
  let t4 ← getTok pars 4
  let b ← parseFloatE t4
  let t5 ← getTok pars 5
  let b_err ← parseFloatE t5
  let t6 ← getTok pars 6
  let logN ← parseFloatE t6
  let t7 ← getTok pars 7
  let logN_err ← parseFloatE t7
  let t8 ← getTok pars 8
  let rf ← parseFloatE t8
  let t9 ← getTok pars 9
  let rf_err ← parseFloatE t9
  pure ⟨num, ion, z, b, logN, rf, z_err, b_err, logN_err, rf_err⟩

/-- Per-line dispatch of the loader: strip, split, then skip blank lines,
skip `#` comments, parse lines with exactly 8 tokens, and silently skip
every other line (this token-count guard is the source's, even though the
parsed format has 10 tokens per data line). -/
def parseLine (line : String) : Except LoadErr (Option CompRow) :=
  let stripped := stripChars line.data
  let pars := splitWSAux stripped []
  if stripped.isEmpty then .ok none
  else if stripped.head? = some '#' then .ok none
  else if pars.length = 8 then (parseDataTokens pars).map some
  else .ok none

/-- First phase of the loader: fold over all lines accumulating
`components_to_add`, aborting at the first exception. -/
def parseLines : List String → Except LoadErr (List CompRow)
  | [] => .ok []
  | l :: ls => do
      let r ← parseLine l
      let rest ← parseLines ls
      match r with
      | none => pure rest
      | some row => pure (row :: rest)

/-- Second phase of the loader, one component: substitute `*` by `x` in
the ion label, synthesize the four names, `add` the four values, then
set the four standard errors, in the source's statement order. -/
def addComponent (ps : List Entry) (r : CompRow) : List Entry :=
  let ion := replaceStar r.ion
  let z_name := "z" ++ intStr r.num ++ "_" ++ ion
  let b_name := "b" ++ intStr r.num ++ "_" ++ ion
  let N_name := "logN" ++ intStr r.num ++ "_" ++ ion
  let rf_name := "rf" ++ intStr r.num ++ "_" ++ ion
  let ps := parsAdd ps z_name r.z
  let ps := parsAdd ps b_name r.b
  let ps := parsAdd ps N_name r.logN
  let ps := parsAdd ps rf_name r.rf
  let ps := parsSetStderr ps z_name r.z_err
  let ps := parsSetStderr ps b_name r.b_err
  let ps := parsSetStderr ps N_name r.logN_err
  let ps := parsSetStderr ps rf_name r.rf_err
  ps

/-- Function `load_components_from_file`, on the list of lines read from
the file (file-system errors from `open` are outside this embedding):
parse all lines, then build the parameter set from the collected rows. -/
def load_components_from_file (lines : List String) :
    Except LoadErr (List Entry) :=
  (parseLines lines).map (fun rows => rows.foldl addComponent [])

/-- A single mutation step on a `Component`: one of the four attribute
setters, or a `set_option` call (which also covers the eight tie/var
attribute setters, each of which just writes its options key). -/
inductive ComponentMut where
  | mutZ : ℚ → ComponentMut
  | mutB : ℚ → ComponentMut
  | mutLogN : ℚ → ComponentMut
  | mutRf : ℚ → ComponentMut
  | mutOpt : String → OptVal → ComponentMut
deriving DecidableEq, Repr

/-- Apply one mutation step. -/
def applyMut (c : Component) : ComponentMut → Component
  | .mutZ v => c.setZ v
  | .mutB v => c.setB v
  | .mutLogN v => c.setLogN v
  | .mutRf v => c.setRf v
  | .mutOpt k v => c.set_option k v

/-- Apply a sequence of mutation steps in order. -/
def applyMuts (c : Component) (ms : List ComponentMut) : Component :=
  ms.foldl applyMut c

/-- C1: the claim says a file whose single line is the well-formed
10-token data line `0 FeII 0.52341 0.00002 12.3 0.4 14.52 0.03 0.85 0.02`
yields the four named entries for that component.  The code instead
returns an empty parameter set: its token-count guard is
`len(pars) == 8`, so the 10-token line falls through to the silent
default branch. -/
theorem c1_valid_line_dropped :
    load_components_from_file
      ["0 FeII 0.52341 0.00002 12.3 0.4 14.52 0.03 0.85 0.02"] =
      Except.ok [] := by
  rfl

/-- C3: the claim says every wrong-token-count data line is silently
ignored without raising.  A 6-token line is indeed dropped, but a line
with exactly 8 tokens passes the guard and then raises `IndexError`
when the body reads tokens 9 and 10. -/
theorem c3_eight_token_line_raises :
    load_components_from_file ["0 FeII 0.5 0.1 12.0 0.4"] = Except.ok [] ∧
    load_components_from_file ["0 FeII 0.5 0.1 12.0 0.4 14.0 0.03"] =
      Except.error LoadErr.indexError := by
  exact ⟨rfl, rfl⟩

/-- C5: the claim says the loader fails with a parse error whenever a
numeric field of a data line is not parseable as a real number.  On the
10-token data line `0 FeII zzz 0.00002 12.3 0.4 14.52 0.03 0.85 0.02`
(unparseable redshift field) the code raises nothing: the line fails the
`len(pars) == 8` guard and is silently dropped before any conversion. -/
theorem c5_unparseable_numeric_dropped :
    load_components_from_file
      ["0 FeII zzz 0.00002 12.3 0.4 14.52 0.03 0.85 0.02"] =
      Except.ok [] := by
  rfl

/-- C6: the `b` setter stores the absolute value of a negative input and
stores a non-negative input unchanged. -/
theorem c6_b_setter_abs (c : Component) (v : ℚ) :
    (c.setB v)._b = if v < 0 then |v| else v := by
  unfold Component.setB
  split <;> rfl

/-- C7: the `rf` setter clamps an input above 1 to 1, an input below 0
to 0, and stores an input in `[0, 1]` unchanged. -/
theorem c7_rf_setter_clamps (c : Component) (v : ℚ) :
    (c.setRf v)._rf = if v > 1 then 1 else if v < 0 then 0 else v := by
  unfold Component.setRf
  split_ifs with h1 h2 h3 h4 h5 <;> first | rfl | tauto

/-- C2, counterexample: constructing a `Component` with `b = -5` and
`rf = 2` stores those values unvalidated, because `__init__` writes the
underscore fields directly instead of going through the setters; so the
invariants `b ≥ 0` and `rf ≤ 1` fail right after construction. -/
theorem c2_ctor_stores_unvalidated :
    (Component.init 0 (-5) 0 2 true true true true
        none none none none)._b < 0 ∧
    1 < (Component.init 0 (-5) 0 2 true true true true
        none none none none)._rf := by
  exact ⟨by norm_num [Component.init], by norm_num [Component.init]⟩

/-- Preservation of the physical invariants by one mutation step: each
setter either leaves `_b`/`_rf` untouched or writes a validated value. -/
theorem inv_applyMut (c : Component) (m : ComponentMut)
    (hb : 0 ≤ c._b) (h0 : 0 ≤ c._rf) (h1 : c._rf ≤ 1) :
    0 ≤ (applyMut c m)._b ∧ 0 ≤ (applyMut c m)._rf ∧
      (applyMut c m)._rf ≤ 1 := by
  cases m with
  | mutZ v => exact ⟨hb, h0, h1⟩
  | mutLogN v => exact ⟨hb, h0, h1⟩
  | mutOpt k v => exact ⟨hb, h0, h1⟩
  | mutB v =>
      show 0 ≤ (c.setB v)._b ∧ 0 ≤ (c.setB v)._rf ∧ (c.setB v)._rf ≤ 1
      unfold Component.setB
      split_ifs
      · exact ⟨abs_nonneg v, h0, h1⟩
      · exact ⟨by linarith, h0, h1⟩
  | mutRf v =>
      show 0 ≤ (c.setRf v)._b ∧ 0 ≤ (c.setRf v)._rf ∧ (c.setRf v)._rf ≤ 1
      unfold Component.setRf
      split_ifs with hA hB hC
      · exact ⟨hb, by norm_num, by norm_num⟩
      · exact ⟨hb, by norm_num, by norm_num⟩
      · exact ⟨hb, h0, h1⟩
      · push_neg at hA
        exact ⟨hb, hA.1, hA.2⟩

/-- C2, amended: when the initial values already satisfy `b ≥ 0` and
`0 ≤ rf ≤ 1`, every sequence of attribute mutations (setters and
`set_option` calls) preserves both invariants. -/
theorem c2_invariants_after_valid_init
    (z b logN rf : ℚ) (vz vb vN vrf : Bool) (tz tb tN trf : Option String)
    (ms : List ComponentMut) (hb : 0 ≤ b) (h0 : 0 ≤ rf) (h1 : rf ≤ 1) :
    0 ≤ (applyMuts (Component.init z b logN rf vz vb vN vrf
        tz tb tN trf) ms)._b ∧
    0 ≤ (applyMuts (Component.init z b logN rf vz vb vN vrf
        tz tb tN trf) ms)._rf ∧
    (applyMuts (Component.init z b logN rf vz vb vN vrf
        tz tb tN trf) ms)._rf ≤ 1 := by
  have key : ∀ (ms : List ComponentMut) (c : Component),
      0 ≤ c._b → 0 ≤ c._rf → c._rf ≤ 1 →
      0 ≤ (applyMuts c ms)._b ∧ 0 ≤ (applyMuts c ms)._rf ∧
        (applyMuts c ms)._rf ≤ 1 := by
    intro ms
    induction ms with
    | nil => exact fun c hb h0 h1 => ⟨hb, h0, h1⟩
    | cons m rest ih =>
        intro c hb h0 h1
        obtain ⟨hb', h0', h1'⟩ := inv_applyMut c m hb h0 h1
        exact ih (applyMut c m) hb' h0' h1'
  exact key ms _ hb h0 h1

/-- C2, witness: a concrete valid construction followed by a negative
`b` assignment and an out-of-range `rf` assignment keeps the invariants. -/
theorem c2_invariants_witness :
    0 ≤ (applyMuts (Component.init 0 1 0 (1/2) true true true true
        none none none none)
        [ComponentMut.mutB (-3), ComponentMut.mutRf 2])._b ∧
    0 ≤ (applyMuts (Component.init 0 1 0 (1/2) true true true true
        none none none none)
        [ComponentMut.mutB (-3), ComponentMut.mutRf 2])._rf ∧
    (applyMuts (Component.init 0 1 0 (1/2) true true true true
        none none none none)
        [ComponentMut.mutB (-3), ComponentMut.mutRf 2])._rf ≤ 1 :=
  c2_invariants_after_valid_init 0 1 0 (1/2) true true true true
    none none none none [ComponentMut.mutB (-3), ComponentMut.mutRf 2]
    (by norm_num) (by norm_num) (by norm_num)

/-- Reading back the key just written into a dict returns the new value. -/
theorem dictGet_dictSet_same (d : List (String × OptVal)) (k : String)
    (v : OptVal) : dictGet (dictSet d k v) k = some v := by
  induction d with
  | nil => simp [dictSet, dictGet]
  | cons p rest ih =>
      obtain ⟨k₁, v₁⟩ := p
      unfold dictSet
      by_cases h : k₁ = k
      · simp [h, dictGet]
      · simp [h, dictGet, ih]

/-- Writing one key of a dict leaves every other key unchanged. -/
theorem dictGet_dictSet_other (d : List (String × OptVal)) (k k' : String)
    (v : OptVal) (h : k' ≠ k) :
    dictGet (dictSet d k v) k' = dictGet d k' := by
  induction d with
  | nil => simp [dictSet, dictGet, Ne.symm h]
  | cons p rest ih =>
      obtain ⟨k₁, v₁⟩ := p
      unfold dictSet
      by_cases hk : k₁ = k
      · subst hk
        simp [dictGet, Ne.symm h]
      · simp [hk, dictGet, ih]

/-- A key absent from a dict looks up to `none` (a `KeyError`). -/
theorem dictGet_eq_none (d : List (String × OptVal)) (k : String)
    (h : k ∉ d.map Prod.fst) : dictGet d k = none := by
  induction d with
  | nil => rfl
  | cons p rest ih =>
      obtain ⟨k₁, v₁⟩ := p
      simp only [List.map_cons, List.mem_cons] at h
      push_neg at h
      unfold dictGet
      rw [if_neg fun he => h.1 he.symm]
      exact ih h.2

/-- C9: for recognized option keys, `set_option` followed by
`get_option` on the same key returns exactly the written value, and
`get_option` on any other recognized key is unaffected. -/
theorem c9_set_get_option (c : Component) (k k' : String) (v : OptVal)
    (hk : k ∈ optionKeys) (hk' : k' ∈ optionKeys) (hne : k' ≠ k) :
    (c.set_option k v).get_option k = some v ∧
    (c.set_option k v).get_option k' = c.get_option k' :=
  ⟨dictGet_dictSet_same c.options k v,
   dictGet_dictSet_other c.options k k' v hne⟩

/-- C9, witness: writing `tie_b` on a concrete component reads back the
written value and leaves `var_z` at its original value. -/
theorem c9_set_get_option_witness :
    ((Component.init 0 1 13 1 true true true true
        none none none none).set_option "tie_b"
        (OptVal.tieVal (some "b0_FeII"))).get_option "tie_b" =
      some (OptVal.tieVal (some "b0_FeII")) ∧
    ((Component.init 0 1 13 1 true true true true
        none none none none).set_option "tie_b"
        (OptVal.tieVal (some "b0_FeII"))).get_option "var_z" =
      (Component.init 0 1 13 1 true true true true
        none none none none).get_option "var_z" :=
  c9_set_get_option (Component.init 0 1 13 1 true true true true
      none none none none) "tie_b" "var_z"
    (OptVal.tieVal (some "b0_FeII")) (by decide) (by decide) (by decide)

/-- C10: on a freshly constructed component, `get_option` with a key
outside the eight recognized names is a lookup failure (`KeyError`,
modelled as `none`), while `set_option` with that key silently inserts
it, after which the key reads back. -/
theorem c10_unknown_option_key (z b logN rf : ℚ) (vz vb vN vrf : Bool)
    (tz tb tN trf : Option String) (k : String) (v : OptVal)
    (hk : k ∉ optionKeys) :
    (Component.init z b logN rf vz vb vN vrf tz tb tN trf).get_option k =
      none ∧
    ((Component.init z b logN rf vz vb vN vrf tz tb tN
        trf).set_option k v).get_option k = some v := by
  constructor
  · apply dictGet_eq_none
    exact hk
  · exact dictGet_dictSet_same _ k v

/-- C10, witness: the unrecognized key `tie_q` fails to read on a fresh
component but reads back after a silent `set_option` insertion. -/
theorem c10_unknown_option_key_witness :
    (Component.init 0 1 13 1 true true true true
        none none none none).get_option "tie_q" = none ∧
    ((Component.init 0 1 13 1 true true true true
        none none none none).set_option "tie_q"
        (OptVal.boolVal true)).get_option "tie_q" =
      some (OptVal.boolVal true) :=
  c10_unknown_option_key 0 1 13 1 true true true true
    none none none none "tie_q" (OptVal.boolVal true) (by decide)

/-- The head character of a synthesized name is the head character of
its field part. -/
theorem head_of_name (f i ion : String) (c : Char)
    (hf : f.data.head? = some c) :
    (f ++ i ++ "_" ++ ion).data.head? = some c := by
  simp only [String.data_append]
  cases hd : f.data with
  | nil => rw [hd] at hf; exact absurd hf (by simp)
  | cons a as =>
      rw [hd] at hf
      simpa using hf

/-- Synthesized names whose field parts start with different characters
are different, whatever the index and ion parts are. -/
theorem name_ne_of_head (f g i j ion₁ ion₂ : String) (c d : Char)
    (hf : f.data.head? = some c) (hg : g.data.head? = some d)
    (hne : c ≠ d) : f ++ i ++ "_" ++ ion₁ ≠ g ++ j ++ "_" ++ ion₂ := by
  intro he
  apply hne
  have h1 := head_of_name f i ion₁ c hf
  have h2 := head_of_name g j ion₂ d hg
  rw [he] at h1
  exact Option.some.inj (h1.symm.trans h2)

/-- Two names with the same field and ion parts are equal only if their
middle (index) parts are. -/
theorem name_mid_inj (f i j ion : String)
    (h : f ++ i ++ "_" ++ ion = f ++ j ++ "_" ++ ion) : i = j := by
  have h2 := congrArg String.data h
  simp only [String.data_append, List.append_cancel_left_eq,
    List.append_cancel_right_eq] at h2
  exact String.ext (by simpa using h2)

/-- Mapping `parsSetStderr` over a parameter list never changes names. -/
theorem parsSetStderr_map_name (ps : List Entry) (n : String) (err : ℚ) :
    (parsSetStderr ps n err).map Entry.name = ps.map Entry.name := by
  unfold parsSetStderr
  rw [List.map_map]
  apply List.map_congr_left
  intro e _
  by_cases h : e.name = n
  · simp [Function.comp, h]
  · simp [Function.comp, h]

/-- C4, counterexample: `components_from_array` performs no `*`
substitution, so ion label `Al*` yields the raw name `z0_Al*`, not the
`z0_Alx` the claim requires from both construction paths alike. -/
theorem c4_array_builder_keeps_star :
    (components_from_array "Al*" [0.1] [5] [13] [0.9]).map Entry.name =
      ["z0_Al*", "b0_Al*", "logN0_Al*", "rf0_Al*"] ∧
    ("z0_Al*" : String) ≠ "z0_Alx" := by
  exact ⟨rfl, by decide⟩

/-- C4, amended: in the file loader's synthesis phase, each component
row yields the four names `<field><index>_<ion>` with `*` substituted by
`x` in the ion label (so row index 2 with ion `Al*` yields `z2_Alx`,
`b2_Alx`, `logN2_Alx`, `rf2_Alx`), while `components_from_array` uses
the ion label verbatim, with no substitution. -/
theorem c4_name_synthesis :
    (∀ (num : ℤ) (ion : String) (z b logN rf ze be le re : ℚ),
      (addComponent [] ⟨num, ion, z, b, logN, rf, ze, be, le, re⟩).map
          Entry.name =
        ["z" ++ intStr num ++ "_" ++ replaceStar ion,
         "b" ++ intStr num ++ "_" ++ replaceStar ion,
         "logN" ++ intStr num ++ "_" ++ replaceStar ion,
         "rf" ++ intStr num ++ "_" ++ replaceStar ion]) ∧
    (addComponent [] ⟨2, "Al*", 0.1, 5, 13, 0.9, 1, 1, 1, 1⟩).map
        Entry.name = ["z2_Alx", "b2_Alx", "logN2_Alx", "rf2_Alx"] ∧
    (components_from_array "Al*" [0.1] [5] [13] [0.9]).map Entry.name =
      ["z0_Al*", "b0_Al*", "logN0_Al*", "rf0_Al*"] := by
  refine ⟨?_, by decide, by decide⟩
  intro num ion z b logN rf ze be le re
  have hzb : ("z" ++ intStr num ++ "_" ++ replaceStar ion) ≠
      ("b" ++ intStr num ++ "_" ++ replaceStar ion) :=
    name_ne_of_head _ _ _ _ _ _ 'z' 'b' rfl rfl (by decide)
  have hzN : ("z" ++ intStr num ++ "_" ++ replaceStar ion) ≠
      ("logN" ++ intStr num ++ "_" ++ replaceStar ion) :=
    name_ne_of_head _ _ _ _ _ _ 'z' 'l' rfl rfl (by decide)
  have hbN : ("b" ++ intStr num ++ "_" ++ replaceStar ion) ≠
      ("logN" ++ intStr num ++ "_" ++ replaceStar ion) :=
    name_ne_of_head _ _ _ _ _ _ 'b' 'l' rfl rfl (by decide)
  have hzr : ("z" ++ intStr num ++ "_" ++ replaceStar ion) ≠
      ("rf" ++ intStr num ++ "_" ++ replaceStar ion) :=
    name_ne_of_head _ _ _ _ _ _ 'z' 'r' rfl rfl (by decide)
  have hbr : ("b" ++ intStr num ++ "_" ++ replaceStar ion) ≠
      ("rf" ++ intStr num ++ "_" ++ replaceStar ion) :=
    name_ne_of_head _ _ _ _ _ _ 'b' 'r' rfl rfl (by decide)
  have hNr : ("logN" ++ intStr num ++ "_" ++ replaceStar ion) ≠
      ("rf" ++ intStr num ++ "_" ++ replaceStar ion) :=
    name_ne_of_head _ _ _ _ _ _ 'l' 'r' rfl rfl (by decide)
  simp [addComponent, parsAdd, parsSetStderr_map_name,
    hzb, hzN, hbN, hzr, hbr, hNr]

/-- The accumulator of `natCharsAux` is appended after the digits. -/
theorem natCharsAux_acc (fuel : ℕ) : ∀ (n : ℕ) (acc : List Char),
    natCharsAux fuel n acc = natCharsAux fuel n [] ++ acc := by
  induction fuel with
  | zero => intro n acc; rfl
  | succ f ih =>
      intro n acc
      unfold natCharsAux
      by_cases h : n < 10
      · simp [h]
      · simp only [h, if_false]
        rw [ih (n / 10) (Char.ofNat (48 + n % 10) :: acc),
          ih (n / 10) [Char.ofNat (48 + n % 10)]]
        simp

/-- Character codes of decimal digits decode back to the digit. -/
theorem toNat_digit_char (k : ℕ) (h : k < 10) :
    (Char.ofNat (48 + k)).toNat = 48 + k := by
  interval_cases k <;> decide

/-- Appending one digit character multiplies the decoded value by ten
and adds the digit. -/
theorem digitsToNat_append_single (l : List Char) (d : Char) :
    digitsToNat (l ++ [d]) = 10 * digitsToNat l + (d.toNat - 48) := by
  unfold digitsToNat
  rw [List.foldl_append]
  rfl

/-- With sufficient fuel, decoding the rendered digits of `n` gives back
`n`. -/
theorem digitsToNat_natCharsAux (fuel : ℕ) : ∀ n : ℕ, n < 10 ^ fuel →
    digitsToNat (natCharsAux fuel n []) = n := by
  induction fuel with
  | zero =>
      intro n hn
      simp only [pow_zero] at hn
      have h0 : n = 0 := Nat.lt_one_iff.mp hn
      subst h0
      rfl
  | succ f ih =>
      intro n hn
      unfold natCharsAux
      by_cases h : n < 10
      · simp only [h, if_true]
        show digitsToNat [Char.ofNat (48 + n % 10)] = n
        unfold digitsToNat
        show 10 * 0 + ((Char.ofNat (48 + n % 10)).toNat - 48) = n
        rw [toNat_digit_char (n % 10) (Nat.mod_lt n (by norm_num))]
        omega
      · simp only [h, if_false]
        rw [natCharsAux_acc f (n / 10) [Char.ofNat (48 + n % 10)]]
        rw [digitsToNat_append_single]
        rw [ih (n / 10) (by
          rw [Nat.div_lt_iff_lt_mul (by norm_num : (0:ℕ) < 10)]
          calc n < 10 ^ (f + 1) := hn
          _ = 10 ^ f * 10 := by ring)]
        rw [toNat_digit_char (n % 10) (Nat.mod_lt n (by omega))]
        omega

/-- Decoding the rendered decimal string of `n` gives back `n`. -/
theorem digitsToNat_natStr (n : ℕ) : digitsToNat (natStr n).data = n := by
  have hb : n < 10 ^ (n + 1) :=
    lt_of_lt_of_le (Nat.lt_pow_self (by norm_num) n)
      (Nat.pow_le_pow_right (by norm_num) (Nat.le_succ n))
  exact digitsToNat_natCharsAux (n + 1) n hb

/-- The decimal rendering of natural numbers is injective. -/
theorem natStr_injective : Function.Injective natStr := by
  intro a b h
  have h2 := congrArg (fun s => digitsToNat s.data) h
  simpa [digitsToNat_natStr] using h2

/-- Adding a parameter whose name is not yet present appends it. -/
theorem parsAdd_of_not_mem (ps : List Entry) (n : String) (v : ℚ)
    (h : n ∉ ps.map Entry.name) : parsAdd ps n v = ps ++ [⟨n, v, none⟩] := by
  induction ps with
  | nil => rfl
  | cons e rest ih =>
      simp only [List.map_cons, List.mem_cons] at h
      push_neg at h
      unfold parsAdd
      rw [if_neg fun he => h.1 he.symm]
      rw [ih h.2]
      rfl

/-- The plain-append builder produces four entries per quadruple. -/
theorem cfaPlain_length (ion : String) : ∀ (num : ℕ)
    (quads : List (ℚ × ℚ × ℚ × ℚ)),
    (cfaPlain ion num quads).length = 4 * quads.length := by
  intro num quads
  induction quads generalizing num with
  | nil => rfl
  | cons q rest ih =>
      obtain ⟨z, b, logN, rf⟩ := q
      show (cfaPlain ion num ((z, b, logN, rf) :: rest)).length = _
      unfold cfaPlain
      simp only [List.length_cons, ih (num + 1), List.length_cons]
      ring

/-- Zipping four lists of a common length yields that length. -/
theorem zip4_length {α β γ δ : Type} : ∀ (as : List α) (bs : List β)
    (cs : List γ) (ds : List δ) (N : ℕ), as.length = N → bs.length = N →
    cs.length = N → ds.length = N → (zip4 as bs cs ds).length = N := by
  intro as
  induction as with
  | nil =>
      intro bs cs ds N ha _ _ _
      simp at ha
      subst ha
      rfl
  | cons a as ih =>
      intro bs cs ds N ha hb hc hd
      cases bs with
      | nil => simp at ha hb; omega
      | cons b bs =>
          cases cs with
          | nil => simp at ha hc; omega
          | cons c cs =>
              cases ds with
              | nil => simp at ha hd; omega
              | cons d ds =>
                  cases N with
                  | zero => simp at ha
                  | succ N =>
                      show (zip4 (a :: as) (b :: bs) (c :: cs)
                        (d :: ds)).length = N + 1
                      unfold zip4
                      simp only [List.length_cons]
                      rw [ih bs cs ds N (by simpa using ha)
                        (by simpa using hb) (by simpa using hc)
                        (by simpa using hd)]

/-- Names synthesized at different indices for the same field and ion
differ, by injectivity of the decimal rendering. -/
theorem name_ne_of_num_ne (f ion : String) (n m : ℕ) (h : n ≠ m) :
    f ++ natStr n ++ "_" ++ ion ≠ f ++ natStr m ++ "_" ++ ion :=
  fun he => h (natStr_injective (name_mid_inj f _ _ ion he))

/-- The builder loop with a fresh accumulator is plain appending: none
of the names it synthesizes collides with an accumulated one, so every
`add` lands in the append branch of the dict insertion. -/
theorem cfaLoop_eq_plain (ion : String) :
    ∀ (quads : List (ℚ × ℚ × ℚ × ℚ)) (num : ℕ) (ps : List Entry),
    FreshFrom ion num ps →
    cfaLoop ion num quads ps = ps ++ cfaPlain ion num quads := by
  intro quads
  induction quads with
  | nil => intro num ps _; simp [cfaLoop, cfaPlain]
  | cons q rest ih =>
      obtain ⟨z, b, logN, rf⟩ := q
      intro num ps h
      have h1 : ("z" ++ natStr num ++ "_" ++ ion) ∉ ps.map Entry.name := by
        intro hmem
        obtain ⟨e, he, hname⟩ := List.mem_map.mp hmem
        exact h e he num le_rfl (by rw [hname]; simp)
      have h2 : ("b" ++ natStr num ++ "_" ++ ion) ∉
          (ps ++ [(⟨"z" ++ natStr num ++ "_" ++ ion, z, none⟩ : Entry)]).map
            Entry.name := by
        intro hmem
        have hsplit : ("b" ++ natStr num ++ "_" ++ ion) ∈
            ps.map Entry.name ∨
            ("b" ++ natStr num ++ "_" ++ ion) =
              ("z" ++ natStr num ++ "_" ++ ion) := by simpa using hmem
        rcases hsplit with hA | hB
        · obtain ⟨e, he, hname⟩ := List.mem_map.mp hA
          exact h e he num le_rfl (by rw [hname]; simp)
        · exact absurd hB (name_ne_of_head _ _ _ _ _ _ 'b' 'z' rfl rfl (by decide))
      have h3 : ("logN" ++ natStr num ++ "_" ++ ion) ∉
          ((ps ++ [(⟨"z" ++ natStr num ++ "_" ++ ion, z, none⟩ : Entry)]) ++
            [(⟨"b" ++ natStr num ++ "_" ++ ion, b, none⟩ : Entry)]).map
            Entry.name := by
        intro hmem
        have hsplit : ("logN" ++ natStr num ++ "_" ++ ion) ∈
            ps.map Entry.name ∨
            ("logN" ++ natStr num ++ "_" ++ ion) =
              ("z" ++ natStr num ++ "_" ++ ion) ∨
            ("logN" ++ natStr num ++ "_" ++ ion) =
              ("b" ++ natStr num ++ "_" ++ ion) := by
          simpa [or_assoc] using hmem
        rcases hsplit with hA | hB | hC
        · obtain ⟨e, he, hname⟩ := List.mem_map.mp hA
          exact h e he num le_rfl (by rw [hname]; simp)
        · exact absurd hB (name_ne_of_head _ _ _ _ _ _ 'l' 'z' rfl rfl (by decide))
        · exact absurd hC (name_ne_of_head _ _ _ _ _ _ 'l' 'b' rfl rfl (by decide))
      have h4 : ("rf" ++ natStr num ++ "_" ++ ion) ∉
          (((ps ++ [(⟨"z" ++ natStr num ++ "_" ++ ion, z, none⟩ : Entry)]) ++
            [(⟨"b" ++ natStr num ++ "_" ++ ion, b, none⟩ : Entry)]) ++
            [(⟨"logN" ++ natStr num ++ "_" ++ ion, logN, none⟩ : Entry)]).map
            Entry.name := by
        intro hmem
        have hsplit : ("rf" ++ natStr num ++ "_" ++ ion) ∈
            ps.map Entry.name ∨
            ("rf" ++ natStr num ++ "_" ++ ion) =
              ("z" ++ natStr num ++ "_" ++ ion) ∨
            ("rf" ++ natStr num ++ "_" ++ ion) =
              ("b" ++ natStr num ++ "_" ++ ion) ∨
            ("rf" ++ natStr num ++ "_" ++ ion) =
              ("logN" ++ natStr num ++ "_" ++ ion) := by
          simpa [or_assoc] using hmem
        rcases hsplit with hA | hB | hC | hD
        · obtain ⟨e, he, hname⟩ := List.mem_map.mp hA
          exact h e he num le_rfl (by rw [hname]; simp)
        · exact absurd hB (name_ne_of_head _ _ _ _ _ _ 'r' 'z' rfl rfl (by decide))
        · exact absurd hC (name_ne_of_head _ _ _ _ _ _ 'r' 'b' rfl rfl (by decide))
        · exact absurd hD (name_ne_of_head _ _ _ _ _ _ 'r' 'l' rfl rfl (by decide))
      have hstep : cfaLoop ion num ((z, b, logN, rf) :: rest) ps =
          cfaLoop ion (num + 1) rest
            (parsAdd (parsAdd (parsAdd (parsAdd ps
              ("z" ++ natStr num ++ "_" ++ ion) z)
              ("b" ++ natStr num ++ "_" ++ ion) b)
              ("logN" ++ natStr num ++ "_" ++ ion) logN)
              ("rf" ++ natStr num ++ "_" ++ ion) rf) := rfl
      rw [hstep, parsAdd_of_not_mem _ _ _ h1, parsAdd_of_not_mem _ _ _ h2,
        parsAdd_of_not_mem _ _ _ h3, parsAdd_of_not_mem _ _ _ h4]
      have hfresh : FreshFrom ion (num + 1)
          ((((ps ++ [(⟨"z" ++ natStr num ++ "_" ++ ion, z, none⟩ : Entry)]) ++
            [(⟨"b" ++ natStr num ++ "_" ++ ion, b, none⟩ : Entry)]) ++
            [(⟨"logN" ++ natStr num ++ "_" ++ ion, logN, none⟩ : Entry)]) ++
            [(⟨"rf" ++ natStr num ++ "_" ++ ion, rf, none⟩ : Entry)]) := by
        intro e he k hk
        have hsplit : e ∈ ps ∨
            e = (⟨"z" ++ natStr num ++ "_" ++ ion, z, none⟩ : Entry) ∨
            e = (⟨"b" ++ natStr num ++ "_" ++ ion, b, none⟩ : Entry) ∨
            e = (⟨"logN" ++ natStr num ++ "_" ++ ion, logN, none⟩ : Entry) ∨
            e = (⟨"rf" ++ natStr num ++ "_" ++ ion, rf, none⟩ : Entry) := by
          simpa [or_assoc] using he
        rcases hsplit with hA | hB | hB | hB | hB
        · exact h e hA k (by omega)
        all_goals
          subst hB
          simp only [List.mem_cons, List.not_mem_nil, or_false]
          push_neg
          refine ⟨?_, ?_, ?_, ?_⟩ <;>
            first
              | exact name_ne_of_num_ne _ _ _ _ (by omega)
              | exact name_ne_of_head _ _ _ _ _ _ _ _ rfl rfl (by decide)
      rw [ih (num + 1) _ hfresh]
      have hplain : cfaPlain ion num ((z, b, logN, rf) :: rest) =
          (⟨"z" ++ natStr num ++ "_" ++ ion, z, none⟩ : Entry) ::
          (⟨"b" ++ natStr num ++ "_" ++ ion, b, none⟩ : Entry) ::
          (⟨"logN" ++ natStr num ++ "_" ++ ion, logN, none⟩ : Entry) ::
          (⟨"rf" ++ natStr num ++ "_" ++ ion, rf, none⟩ : Entry) ::
          cfaPlain ion (num + 1) rest := rfl
      rw [hplain]
      simp [List.append_assoc]

/-- C8: for equal-length inputs of length `N`, `components_from_array`
is exactly the plain positional construction — `4 × N` entries, names
per the grammar, values positional, `stderr` absent — and on the
concrete `MgII` scenario it yields the eight claimed entries. -/
theorem c8_array_builder (ion : String) (z b logN rf : List ℚ) (N : ℕ)
    (hz : z.length = N) (hb : b.length = N) (hl : logN.length = N)
    (hr : rf.length = N) :
    components_from_array ion z b logN rf =
      cfaPlain ion 0 (zip4 z b logN rf) ∧
    (components_from_array ion z b logN rf).length = 4 * N ∧
    components_from_array "MgII" [0.1, 0.2] [5, 10] [13, 14] [0.9, 1] =
      [⟨"z0_MgII", 0.1, none⟩, ⟨"b0_MgII", 5, none⟩,
       ⟨"logN0_MgII", 13, none⟩, ⟨"rf0_MgII", 0.9, none⟩,
       ⟨"z1_MgII", 0.2, none⟩, ⟨"b1_MgII", 10, none⟩,
       ⟨"logN1_MgII", 14, none⟩, ⟨"rf1_MgII", 1, none⟩] := by
  have hplain : components_from_array ion z b logN rf =
      cfaPlain ion 0 (zip4 z b logN rf) := by
    unfold components_from_array
    rw [cfaLoop_eq_plain ion (zip4 z b logN rf) 0 []
      (fun e he => absurd he (List.not_mem_nil e))]
    exact List.nil_append _
  refine ⟨hplain, ?_, rfl⟩
  rw [hplain, cfaPlain_length, zip4_length z b logN rf N hz hb hl hr]

/-- C8, witness: the `MgII` scenario instantiates the array-builder
theorem with all four lists of length 2, giving 8 entries. -/
theorem c8_array_builder_witness :
    (([0.1, 0.2] : List ℚ).length = 2) ∧
    (components_from_array "MgII" [0.1, 0.2] [5, 10] [13, 14]
      [0.9, 1]).length = 4 * 2 :=
  ⟨rfl, (c8_array_builder "MgII" [0.1, 0.2] [5, 10] [13, 14] [0.9, 1] 2
    rfl rfl rfl rfl).2.1⟩
